import Mathlib

/-!
# repo-sync: Reference Comparison & Sync-Safety Engine, shallow embedding

This file embeds the core of the `repo-sync` tool (TypeScript sources
`src/types.ts`, `src/git.ts`, `src/sync.ts`) in Lean 4 and proves the
spec's claims about it.

Side effects (the git subprocess calls that `compareRefs`, `status` and
`push` perform against one repository path) are embedded as an explicit
environment `GitEnv`: each field records the result the corresponding git
invocation would return in the single-threaded, synchronous run the code
performs.  JavaScript `Map<string,string>` values are embedded as ordered
association lists; `null`/`undefined` become `Option`.
-/

namespace RepoSync

/-- Result of `exec` in `git.ts`: `{ success, output, error? }`. -/
structure ExecResult where
  success : Bool
  output : String
  error : Option String := none
deriving DecidableEq, Repr

/-- The six-way status of `RefComparison` in `types.ts`. -/
inductive RefStatus
  | ahead
  | behind
  | same
  | diverged
  | new
  | missing
deriving DecidableEq, Repr

/-- Structure `RefComparison` from `types.ts`: `{name, localRef, privateRef, status,
aheadCount?, behindCount?}`. -/
structure RefComparison where
  name : String
  localRef : Option String
  privateRef : Option String
  status : RefStatus
  aheadCount : Option Nat := none
  behindCount : Option Nat := none
deriving DecidableEq, Repr

/-- The world one `repo-sync` run sees for a single repository path: the
outcome of every git side effect that `status`/`push`/`compareRefs` can
perform.  `mergeBaseIsAncestor a d` is the `ExecResult` of
`git merge-base --is-ancestor a d`; `revListCount f t` the result of
`git rev-list --count f..t`; the remaining fields are the results of the
other calls made in `sync.ts`. -/
structure GitEnv where
  repoExists : Bool
  cloneTime : Option Nat
  fetchPrivate : ExecResult
  localRefs : List (String × String)
  privateRefs : List (String × String)
  mergeBaseIsAncestor : String → String → ExecResult
  revListCount : String → String → ExecResult
  defaultBranch : String
  addSourceNoticeResult : ExecResult
  pushMirrorResult : ExecResult

/-- Function `isAncestor` from `git.ts`: collapses the exec result of
`git merge-base --is-ancestor ancestor descendant` to its `success` bit. -/
def isAncestor (env : GitEnv) (ancestor descendant : String) : Bool :=
  (env.mergeBaseIsAncestor ancestor descendant).success

/-- Numeric value of a list of decimal digit characters. -/
def digitsVal (l : List Char) : Nat :=
  l.foldl (fun n c => n * 10 + (c.toNat - 48)) 0

/-- JavaScript `Number.parseInt(s, 10)` as used on `git rev-list --count` output:
the leading run of decimal digits, `none` for NaN. -/
def parseInt10 (s : String) : Option Nat :=
  let ds := s.data.takeWhile Char.isDigit
  if ds.isEmpty then none else some (digitsVal ds)

/-- Function `getCommitCount` from `git.ts`: parse the `rev-list --count` output,
`|| 0` on NaN, 0 on a failed exec. -/
def getCommitCount (env : GitEnv) (from_ to_ : String) : Nat :=
  let result := env.revListCount from_ to_
  if result.success then (parseInt10 result.output).getD 0 else 0

/-- First component of `refName.split("/", 2)` ("heads" or "tags"),
computed on the character list. -/
def refKind (refName : String) : String :=
  String.mk (refName.data.takeWhile (fun c => c ≠ '/'))

/-- Second component of `refName.split("/", 2)`: the characters between
the first and second separator (`split` with limit 2 truncates there);
`""` when no separator exists (inventory keys always contain one). -/
def refShortName (refName : String) : String :=
  String.mk
    (((refName.data.dropWhile (fun c => c ≠ '/')).drop 1).takeWhile (fun c => c ≠ '/'))

/-- The `type === "tags"` test selecting the target array in `compareRefs`. -/
def isTagRef (refName : String) : Bool :=
  refKind refName == "tags"

/-- JavaScript `Map.get`: value stored for a key in the (insertion-ordered)
association list. -/
def lookupRef (m : List (String × String)) (k : String) : Option String :=
  (m.find? (fun p => p.1 == k)).map (fun p => p.2)

/-- Lookup `privateRefs.get(refName) || null`: JavaScript falsiness also maps the
empty string to `null`. -/
def getOrNull (m : List (String × String)) (k : String) : Option String :=
  match lookupRef m k with
  | some s => if s = "" then none else some s
  | none => none

/-- Body of the first loop of `compareRefs` in `git.ts` for one
`(refName, localSha)` entry of `localRefs`. -/
def classifyLocal (env : GitEnv) (privateRefs : List (String × String))
    (refName localSha : String) : RefComparison :=
  match getOrNull privateRefs refName with
  | none =>
      { name := refShortName refName, localRef := some localSha,
        privateRef := none, status := .new }
  | some privateSha =>
      if localSha = privateSha then
        { name := refShortName refName, localRef := some localSha,
          privateRef := some privateSha, status := .same }
      else
        let localIsAncestor := isAncestor env localSha privateSha
        let privateIsAncestor := isAncestor env privateSha localSha
        if privateIsAncestor then
          { name := refShortName refName, localRef := some localSha,
            privateRef := some privateSha, status := .ahead,
            aheadCount := some (getCommitCount env privateSha localSha) }
        else if localIsAncestor then
          { name := refShortName refName, localRef := some localSha,
            privateRef := some privateSha, status := .behind,
            behindCount := some (getCommitCount env localSha privateSha) }
        else
          { name := refShortName refName, localRef := some localSha,
            privateRef := some privateSha, status := .diverged }

/-- Record pushed by the second loop of `compareRefs` for a ref present
only on the private side. -/
def missingRecord (refName privateSha : String) : RefComparison :=
  { name := refShortName refName, localRef := none,
    privateRef := some privateSha, status := .missing }

/-- Push `target.push(record)` where `target` is the `tags` array when `tag`
holds and the `branches` array otherwise. -/
def pushRec (tag : Bool) (acc : List RefComparison × List RefComparison)
    (r : RefComparison) : List RefComparison × List RefComparison :=
  if tag then (acc.1, acc.2 ++ [r]) else (acc.1 ++ [r], acc.2)

/-- Function `compareRefs` from `git.ts`: iterate `localRefs` classifying each entry
against `privateRefs`, then add a `missing` record for every private ref
absent locally; records are routed to the `branches` or `tags` array by the
first component of the qualified name. -/
def compareRefs (env : GitEnv) (localRefs privateRefs : List (String × String)) :
    List RefComparison × List RefComparison :=
  privateRefs.foldl
    (fun acc p =>
      if !(lookupRef localRefs p.1).isSome then
        pushRec (isTagRef p.1) acc (missingRecord p.1 p.2)
      else acc)
    (localRefs.foldl
      (fun acc p => pushRec (isTagRef p.1) acc (classifyLocal env privateRefs p.1 p.2))
      ([], []))

/-- Structure `RepoConfig` from `types.ts` (`public`/`private` renamed to
`publicUrl`/`privateUrl`; the optional `markSource` flag is a plain `Bool`,
matching its use only in truthiness tests). -/
structure RepoConfig where
  name : String
  publicUrl : String
  privateUrl : String
  markSource : Bool := false
deriving DecidableEq, Repr

/-- Structure `RepoStatus` from `types.ts` (the `Date` in `pulledAt` is opaque). -/
structure RepoStatus where
  name : String
  publicUrl : String
  privateUrl : String
  pulled : Bool
  pulledAt : Option Nat := none
  branches : List RefComparison
  tags : List RefComparison
  error : Option String := none
deriving DecidableEq, Repr

/-- Structure `StatusResult` from `sync.ts`. -/
structure StatusResult where
  status : RepoStatus
  canPush : Bool
  hasChanges : Bool
  errors : List String
deriving DecidableEq, Repr

/-- Structure `PushResult` from `sync.ts`. -/
structure PushResult where
  success : Bool
  pushed : Bool
  error : Option String := none
deriving DecidableEq, Repr

/-- Effect trace of one `push` run: its `PushResult` together with whether
the `addSourceNotice` and `pushMirror` side effects were invoked. -/
structure PushTrace where
  result : PushResult
  noticeAttempted : Bool
  mirrorPushAttempted : Bool
deriving DecidableEq, Repr

/-- Blocking reason pushed by `status` when some record is `behind`. -/
def behindMsg : String := "Private has commits not in public - this shouldn't happen"

/-- Blocking reason pushed by `status` when some record is `diverged`. -/
def divergedMsg : String := "Refs have diverged - manual intervention may be needed"

/-- Error message of the not-pulled early returns in `status` and `push`. -/
def notPulledMsg : String := "Not pulled yet. Run 'repo-sync pull' first."

/-- Function `status` from `sync.ts`: early-return when the cached mirror is absent;
otherwise compare refs, derive `canPush`/`hasChanges` and the per-class
blocking reasons. -/
def status (env : GitEnv) (repo : RepoConfig) : StatusResult :=
  let baseStatus : RepoStatus :=
    { name := repo.name, publicUrl := repo.publicUrl, privateUrl := repo.privateUrl,
      pulled := false, branches := [], tags := [] }
  if !env.repoExists then
    { status := { baseStatus with error := some notPulledMsg },
      canPush := false, hasChanges := false, errors := ["Not pulled yet"] }
  else
    let pair := compareRefs env env.localRefs env.privateRefs
    let branches := pair.1
    let tags := pair.2
    let hasBehind := (branches ++ tags).any (fun r => r.status == .behind)
    let hasDiverged := (branches ++ tags).any (fun r => r.status == .diverged)
    let hasChanges := (branches ++ tags).any
      (fun r => r.status == .ahead || r.status == .new || r.status == .missing)
    let errors :=
      (if hasBehind then [behindMsg] else []) ++
      (if hasDiverged then [divergedMsg] else [])
    { status :=
        { baseStatus with
          pulled := true, pulledAt := env.cloneTime,
          branches := branches, tags := tags },
      canPush := !hasBehind && !hasDiverged,
      hasChanges := hasChanges,
      errors := errors }

/-- Template-literal `${x}` interpolation of an optional string in a template literal. -/
def jsStr (s : Option String) : String := s.getD "undefined"

/-- Function `push` from `sync.ts`.  The early returns of the TypeScript body are
encoded with `Option`: the non-`markSource` status gate first, then the
`markSource` notice-failure return, then the mirror push itself. -/
def push (env : GitEnv) (repo : RepoConfig) : PushTrace :=
  if !env.repoExists then
    { result := { success := false, pushed := false, error := some notPulledMsg },
      noticeAttempted := false, mirrorPushAttempted := false }
  else
    let gate : Option PushResult :=
      if !repo.markSource then
        let statusResult := status env repo
        if !statusResult.canPush then
          some { success := false, pushed := false,
                 error := some (String.intercalate "; " statusResult.errors) }
        else if !statusResult.hasChanges then
          some { success := true, pushed := false }
        else none
      else none
    match gate with
    | some r => { result := r, noticeAttempted := false, mirrorPushAttempted := false }
    | none =>
        let noticeFail : Option PushTrace :=
          if repo.markSource then
            let noticeResult := env.addSourceNoticeResult
            if !noticeResult.success then
              some
                { result :=
                    { success := false, pushed := false,
                      error := some ("Failed to add source notice: " ++ jsStr noticeResult.error) },
                  noticeAttempted := true, mirrorPushAttempted := false }
            else none
          else none
        match noticeFail with
        | some t => t
        | none =>
            let pushResult := env.pushMirrorResult
            if !pushResult.success then
              { result :=
                  { success := false, pushed := false,
                    error := some ("Failed to push: " ++ jsStr pushResult.error) },
                noticeAttempted := repo.markSource, mirrorPushAttempted := true }
            else
              { result := { success := true, pushed := true },
                noticeAttempted := repo.markSource, mirrorPushAttempted := true }

/-! ## Ground-truth commit graphs

The spec's ancestry oracle is git itself.  To state that the oracle
"answers correctly" (claim C5) we model the commit graph as a finite DAG
and compute reachability by saturation. -/

/-- A commit graph: a node list (used as iteration fuel) and parent links. -/
structure Dag where
  nodes : List String
  parents : String → List String

/-- One saturation step: add all parents of the current reachable set. -/
def reachStep (g : Dag) (s : Finset String) : Finset String :=
  s ∪ s.biUnion (fun c => (g.parents c).toFinset)

/-- Commits reachable from `a` by following parent links (`a` included). -/
def reach (g : Dag) (a : String) : Finset String :=
  (reachStep g)^[g.nodes.length] {a}

/-- Ground truth of `git rev-list --count f..t`: commits reachable from `t`
but not reachable from `f`. -/
def exclusiveCount (g : Dag) (f t : String) : Nat :=
  ((reach g t) \ (reach g f)).card

/-- All commit identifiers appearing in a pair of inventories; the oracle
is only ever queried on these. -/
def invShas (localRefs privateRefs : List (String × String)) : List String :=
  localRefs.map (fun p => p.2) ++ privateRefs.map (fun p => p.2)

/-! ## Spec-side classifier (refinement target for C1)

`specRecordLocal` renders claim C1's classification table for one source
entry, in the claim's own terms: `new` when the name is absent from the
destination map, `same` on equal commits, then `ahead`/`behind`/`diverged`
by the oracle's reported ancestry, in the claim's listed order.  The
`ahead`/`behind` counts carry the count query's answer (counts are the
subject of C5, not C1). -/

/-- Claim C1's classification record for a `(refName, localSha)` source
entry against the destination inventory `dest`. -/
def specRecordLocal (env : GitEnv) (dest : List (String × String))
    (refName localSha : String) : RefComparison :=
  match lookupRef dest refName with
  | none =>
      { name := refShortName refName, localRef := some localSha,
        privateRef := none, status := .new }
  | some destSha =>
      if localSha = destSha then
        { name := refShortName refName, localRef := some localSha,
          privateRef := some destSha, status := .same }
      else if isAncestor env destSha localSha then
        { name := refShortName refName, localRef := some localSha,
          privateRef := some destSha, status := .ahead,
          aheadCount := some (getCommitCount env destSha localSha) }
      else if isAncestor env localSha destSha then
        { name := refShortName refName, localRef := some localSha,
          privateRef := some destSha, status := .behind,
          behindCount := some (getCommitCount env localSha destSha) }
      else
        { name := refShortName refName, localRef := some localSha,
          privateRef := some destSha, status := .diverged }

/-! ## Concrete fixtures used by witnesses and counterexamples -/

/-- A successful exec result. -/
def execOk : ExecResult := { success := true, output := "" }

/-- A failed exec result, as git produces when a queried commit object is
absent from the repository. -/
def execFail : ExecResult :=
  { success := false, output := "", error := some "fatal: Not a valid commit name" }

/-- A plain repository configuration (no `markSource`). -/
def repoPlain : RepoConfig :=
  { name := "demo", publicUrl := "https://example.com/demo.git",
    privateUrl := "git@example.com:vendor/demo.git" }

/-- The same repository with `markSource: true`. -/
def repoMark : RepoConfig := { repoPlain with markSource := true }

/-- A repository whose cached mirror does not exist. -/
def envNotPulled : GitEnv :=
  { repoExists := false, cloneTime := none, fetchPrivate := execOk,
    localRefs := [], privateRefs := [],
    mergeBaseIsAncestor := fun _ _ => execOk,
    revListCount := fun _ _ => execOk,
    defaultBranch := "main", addSourceNoticeResult := execOk,
    pushMirrorResult := execOk }

/-- A pulled repository whose two `heads/main` commits differ and whose
ancestry queries fail outright in both directions (missing commit
object): the oracle-failure scenario of claim C3. -/
def envOracleFailure : GitEnv :=
  { repoExists := true, cloneTime := some 0, fetchPrivate := execOk,
    localRefs := [("heads/main", "aaa1111")],
    privateRefs := [("heads/main", "bbb2222")],
    mergeBaseIsAncestor := fun _ _ => execFail,
    revListCount := fun _ _ => execFail,
    defaultBranch := "main", addSourceNoticeResult := execOk,
    pushMirrorResult := execOk }

/-- A pulled repository with one diverged branch (`heads/main`, oracle
answers false both ways) among a same branch and a same tag. -/
def envMixed : GitEnv :=
  { repoExists := true, cloneTime := some 0, fetchPrivate := execOk,
    localRefs := [("heads/main", "aaa1111"), ("heads/dev", "ccc3333"), ("tags/v1", "ddd4444")],
    privateRefs := [("heads/main", "bbb2222"), ("heads/dev", "ccc3333"), ("tags/v1", "ddd4444")],
    mergeBaseIsAncestor := fun _ _ => execFail,
    revListCount := fun _ _ => execFail,
    defaultBranch := "main", addSourceNoticeResult := execOk,
    pushMirrorResult := execOk }

/-- A two-commit graph: `A`'s parent is `B`. -/
def dagW : Dag := { nodes := ["A", "B"], parents := fun c => if c = "A" then ["B"] else [] }

/-- A pulled repository over `dagW`: local `heads/main` at `A`, private at
its parent `B`; the oracle answers exactly per `dagW`. -/
def envDag : GitEnv :=
  { repoExists := true, cloneTime := some 0, fetchPrivate := execOk,
    localRefs := [("heads/main", "A")],
    privateRefs := [("heads/main", "B")],
    mergeBaseIsAncestor := fun a b =>
      { success := a == b || (a == "B" && b == "A"), output := "" },
    revListCount := fun a b =>
      { success := true, output := if a == "B" && b == "A" then "1" else "0" },
    defaultBranch := "main", addSourceNoticeResult := execOk,
    pushMirrorResult := execOk }

/-! ## Helper lemmas -/

/-- The classify-and-push loop shape of `compareRefs`, with a guard:
entries are routed to the two accumulator components by `tag`, skipping
entries rejected by `keep`. -/
theorem foldl_pushRec_filtered {α : Type} (f : α → RefComparison) (keep tag : α → Bool)
    (l : List α) (acc : List RefComparison × List RefComparison) :
    l.foldl (fun acc p => if keep p then pushRec (tag p) acc (f p) else acc) acc
      = (acc.1 ++ (l.filter (fun p => keep p && !tag p)).map f,
         acc.2 ++ (l.filter (fun p => keep p && tag p)).map f) := by
  induction l generalizing acc with
  | nil => simp
  | cons hd tl ih =>
      simp only [List.foldl_cons]
      rw [ih]
      cases hk : keep hd <;> cases ht : tag hd <;>
        simp [hk, ht, pushRec, List.filter_cons, List.append_assoc]

/-- The unguarded classify-and-push loop shape (first loop of
`compareRefs`). -/
theorem foldl_pushRec {α : Type} (f : α → RefComparison) (tag : α → Bool)
    (l : List α) (acc : List RefComparison × List RefComparison) :
    l.foldl (fun acc p => pushRec (tag p) acc (f p)) acc
      = (acc.1 ++ (l.filter (fun p => !tag p)).map f,
         acc.2 ++ (l.filter tag).map f) := by
  induction l generalizing acc with
  | nil => simp
  | cons hd tl ih =>
      simp only [List.foldl_cons]
      rw [ih]
      cases ht : tag hd <;>
        simp [ht, pushRec, List.filter_cons, List.append_assoc]

/-- Closed form of `compareRefs`: each output array is the corresponding
filtered-and-mapped slice of the two input inventories. -/
theorem compareRefs_eq (env : GitEnv) (localRefs privateRefs : List (String × String)) :
    compareRefs env localRefs privateRefs
      = ((localRefs.filter (fun p => !isTagRef p.1)).map
            (fun p => classifyLocal env privateRefs p.1 p.2)
          ++ (privateRefs.filter
                (fun p => !(lookupRef localRefs p.1).isSome && !isTagRef p.1)).map
              (fun p => missingRecord p.1 p.2),
         (localRefs.filter (fun p => isTagRef p.1)).map
            (fun p => classifyLocal env privateRefs p.1 p.2)
          ++ (privateRefs.filter
                (fun p => !(lookupRef localRefs p.1).isSome && isTagRef p.1)).map
              (fun p => missingRecord p.1 p.2)) := by
  unfold compareRefs
  rw [foldl_pushRec]
  rw [foldl_pushRec_filtered]
  simp

/-- Interchange of the middle two blocks of a four-block append, up to
permutation. -/
theorem append_append_perm_swap {α : Type} [DecidableEq α] (A B C D : List α) :
    List.Perm ((A ++ B) ++ (C ++ D)) ((A ++ C) ++ (B ++ D)) := by
  rw [List.perm_iff_count]
  intro a
  simp only [List.count_append]
  omega

/-- A successful `lookupRef` returns the value of an entry of the list. -/
theorem lookupRef_mem {m : List (String × String)} {k v : String}
    (h : lookupRef m k = some v) : (k, v) ∈ m := by
  unfold lookupRef at h
  cases hf : m.find? (fun p => p.1 == k) with
  | none => simp [hf] at h
  | some p =>
      have hmem := List.mem_of_find?_eq_some hf
      have hkey := List.find?_some hf
      have hk : p.1 = k := by simpa using hkey
      have hv : p.2 = v := by
        rw [hf] at h
        simpa using h
      have hp : p = (k, v) := by
        cases p
        simp only at hk hv
        rw [hk, hv]
      rw [← hp]; exact hmem

/-- With a destination inventory free of empty commit strings, the
JavaScript-falsiness lookup agrees with the plain map lookup, and the
engine's per-entry classification coincides with claim C1's table. -/
theorem classifyLocal_eq_spec (env : GitEnv) (dest : List (String × String))
    (hd : ∀ p ∈ dest, p.2 ≠ "") (refName localSha : String) :
    classifyLocal env dest refName localSha = specRecordLocal env dest refName localSha := by
  have hg : getOrNull dest refName = lookupRef dest refName := by
    unfold getOrNull
    cases hf : lookupRef dest refName with
    | none => rfl
    | some v => exact if_neg (hd _ (lookupRef_mem hf))
  unfold classifyLocal specRecordLocal
  rw [hg]

/-- Membership in the combined `compareRefs` output: every record comes
from a source entry (first loop) or a destination-only entry (second
loop). -/
theorem mem_compareRefs {env : GitEnv} {localRefs privateRefs : List (String × String)}
    {r : RefComparison}
    (h : r ∈ (compareRefs env localRefs privateRefs).1
           ++ (compareRefs env localRefs privateRefs).2) :
    (∃ p ∈ localRefs, r = classifyLocal env privateRefs p.1 p.2) ∨
    (∃ p ∈ privateRefs, r = missingRecord p.1 p.2) := by
  rw [compareRefs_eq] at h
  simp only [List.mem_append, List.mem_map, List.mem_filter] at h
  rcases h with ((⟨p, ⟨hp, _⟩, hr⟩ | ⟨p, ⟨hp, _⟩, hr⟩) | (⟨p, ⟨hp, _⟩, hr⟩ | ⟨p, ⟨hp, _⟩, hr⟩))
  · exact Or.inl ⟨p, hp, hr.symm⟩
  · exact Or.inr ⟨p, hp, hr.symm⟩
  · exact Or.inl ⟨p, hp, hr.symm⟩
  · exact Or.inr ⟨p, hp, hr.symm⟩

/-- The reachable-set saturation only grows. -/
theorem subset_iterate_reachStep (g : Dag) (n : Nat) (s : Finset String) :
    s ⊆ (reachStep g)^[n] s := by
  induction n with
  | zero => simp
  | succ n ih =>
      rw [Function.iterate_succ_apply']
      exact ih.trans (Finset.subset_union_left)

/-- Every commit reaches itself. -/
theorem self_mem_reach (g : Dag) (a : String) : a ∈ reach g a :=
  subset_iterate_reachStep g _ _ (Finset.mem_singleton_self a)

/-- If `t` is not reachable from `f`, the exclusive count `f..t` is at
least one (`t` itself is counted). -/
theorem one_le_exclusiveCount (g : Dag) {f t : String} (h : t ∉ reach g f) :
    1 ≤ exclusiveCount g f t := by
  have : t ∈ (reach g t) \ (reach g f) :=
    Finset.mem_sdiff.mpr ⟨self_mem_reach g t, h⟩
  exact Finset.card_pos.mpr ⟨t, this⟩

/-- When `canPush` is false some blocking reason was pushed, so the error
list is nonempty. -/
theorem status_canPush_false_errors_ne_nil (env : GitEnv) (repo : RepoConfig)
    (h : env.repoExists = true) (hc : (status env repo).canPush = false) :
    (status env repo).errors ≠ [] := by
  unfold status at hc ⊢
  rw [h] at hc ⊢
  simp only [Bool.not_true, Bool.false_eq_true, if_false] at hc ⊢
  cases hb : ((compareRefs env env.localRefs env.privateRefs).1
      ++ (compareRefs env env.localRefs env.privateRefs).2).any
        (fun r => r.status == RefStatus.behind) <;>
    cases hv : ((compareRefs env env.localRefs env.privateRefs).1
        ++ (compareRefs env env.localRefs env.privateRefs).2).any
          (fun r => r.status == RefStatus.diverged) <;>
      simp [hb, hv] at hc ⊢

/-- Inversion of a successful `getOrNull`: the map lookup succeeded with a
nonempty value. -/
theorem getOrNull_some {m : List (String × String)} {k v : String}
    (h : getOrNull m k = some v) : lookupRef m k = some v ∧ v ≠ "" := by
  unfold getOrNull at h
  cases hf : lookupRef m k with
  | none => rw [hf] at h; exact absurd h (by simp)
  | some w =>
      rw [hf] at h
      have h2 : (if w = "" then (none : Option String) else some w) = some v := h
      by_cases hw : w = ""
      · rw [if_pos hw] at h2; exact absurd h2 (by simp)
      · rw [if_neg hw] at h2
        obtain rfl : w = v := by simpa using h2
        exact ⟨rfl, hw⟩

/-- Evaluation of `classifyLocal` on a name absent from the destination: a `new`
record. -/
theorem classifyLocal_none (env : GitEnv) (privateRefs : List (String × String))
    (n s : String) (hg : getOrNull privateRefs n = none) :
    classifyLocal env privateRefs n s =
      { name := refShortName n, localRef := some s, privateRef := none,
        status := RefStatus.new } := by
  simp [classifyLocal, hg]

/-- Evaluation of `classifyLocal` on equal commits: a `same` record. -/
theorem classifyLocal_same (env : GitEnv) (privateRefs : List (String × String))
    (n s d : String) (hg : getOrNull privateRefs n = some d) (heq : s = d) :
    classifyLocal env privateRefs n s =
      { name := refShortName n, localRef := some s, privateRef := some d,
        status := RefStatus.same } := by
  simp [classifyLocal, hg, heq]

/-- Evaluation of `classifyLocal` when the private commit is a reported ancestor of the
local commit: an `ahead` record with the count query's answer. -/
theorem classifyLocal_ahead (env : GitEnv) (privateRefs : List (String × String))
    (n s d : String) (hg : getOrNull privateRefs n = some d) (hne : s ≠ d)
    (h2 : isAncestor env d s = true) :
    classifyLocal env privateRefs n s =
      { name := refShortName n, localRef := some s, privateRef := some d,
        status := RefStatus.ahead, aheadCount := some (getCommitCount env d s) } := by
  simp [classifyLocal, hg, hne, h2]

/-- Evaluation of `classifyLocal` when only the local commit is a reported ancestor of
the private commit: a `behind` record with the count query's answer. -/
theorem classifyLocal_behind (env : GitEnv) (privateRefs : List (String × String))
    (n s d : String) (hg : getOrNull privateRefs n = some d) (hne : s ≠ d)
    (h2 : isAncestor env d s = false) (h1 : isAncestor env s d = true) :
    classifyLocal env privateRefs n s =
      { name := refShortName n, localRef := some s, privateRef := some d,
        status := RefStatus.behind, behindCount := some (getCommitCount env s d) } := by
  simp [classifyLocal, hg, hne, h2, h1]

/-- Evaluation of `classifyLocal` when neither direction is a reported ancestor: a
`diverged` record. -/
theorem classifyLocal_diverged (env : GitEnv) (privateRefs : List (String × String))
    (n s d : String) (hg : getOrNull privateRefs n = some d) (hne : s ≠ d)
    (h2 : isAncestor env d s = false) (h1 : isAncestor env s d = false) :
    classifyLocal env privateRefs n s =
      { name := refShortName n, localRef := some s, privateRef := some d,
        status := RefStatus.diverged } := by
  simp [classifyLocal, hg, hne, h2, h1]

/-- Evaluation of `lookupRef` on a matching singleton. -/
theorem lookupRef_singleton (k v : String) : lookupRef [(k, v)] k = some v := by
  unfold lookupRef
  rw [List.find?_cons_of_pos]
  · rfl
  · simp

/-! ## Claims -/

/-- Claim C10: for a repository whose cached mirror does not exist,
`status` returns pulled false, empty branch and tag lists, `canPush`
false, `hasChanges` false and a single not-pulled error, and `push` fails
without invoking any transport side effect. -/
theorem status_push_not_pulled (env : GitEnv) (repo : RepoConfig)
    (h : env.repoExists = false) :
    status env repo =
      { status :=
          { name := repo.name, publicUrl := repo.publicUrl, privateUrl := repo.privateUrl,
            pulled := false, pulledAt := none, branches := [], tags := [],
            error := some notPulledMsg },
        canPush := false, hasChanges := false, errors := ["Not pulled yet"] }
    ∧ push env repo =
      { result := { success := false, pushed := false, error := some notPulledMsg },
        noticeAttempted := false, mirrorPushAttempted := false } := by
  refine ⟨?_, ?_⟩ <;> simp [status, push, h]

/-- Witness for C10 at the concrete not-pulled environment. -/
theorem status_push_not_pulled_witness :
    envNotPulled.repoExists = false
    ∧ (status envNotPulled repoPlain =
        { status :=
            { name := repoPlain.name, publicUrl := repoPlain.publicUrl,
              privateUrl := repoPlain.privateUrl,
              pulled := false, pulledAt := none, branches := [], tags := [],
              error := some notPulledMsg },
          canPush := false, hasChanges := false, errors := ["Not pulled yet"] }
      ∧ push envNotPulled repoPlain =
        { result := { success := false, pushed := false, error := some notPulledMsg },
          noticeAttempted := false, mirrorPushAttempted := false }) :=
  ⟨rfl, status_push_not_pulled envNotPulled repoPlain rfl⟩

/-- Counterexample to claim C2 as stated: for a not-pulled repository the
status result has `canPush = false` although no classification record at
all (in particular none with status `behind` or `diverged`) exists, so
"canPush is false iff some record is behind or diverged" fails for this
status result. -/
theorem canPush_false_without_bad_records :
    (status envNotPulled repoPlain).canPush = false
    ∧ ∀ r ∈ (status envNotPulled repoPlain).status.branches
              ++ (status envNotPulled repoPlain).status.tags,
        ¬(r.status = RefStatus.behind ∨ r.status = RefStatus.diverged) := by
  decide

/-- Claim C2, amended to status results of pulled repositories: `canPush`
is false iff some branch or tag record has status `behind` or
`diverged`. -/
theorem status_canPush_iff_behind_or_diverged (env : GitEnv) (repo : RepoConfig)
    (h : env.repoExists = true) :
    (status env repo).canPush = false ↔
      ∃ r ∈ (status env repo).status.branches ++ (status env repo).status.tags,
        r.status = RefStatus.behind ∨ r.status = RefStatus.diverged := by
  have hbool : ∀ a b : Bool, (!a && !b) = false ↔ (a = true ∨ b = true) := by
    intro a b; cases a <;> cases b <;> simp
  unfold status
  rw [h]
  simp only [Bool.not_true, Bool.false_eq_true, if_false]
  rw [hbool]
  constructor
  · rintro (hA | hB)
    · rw [List.any_eq_true] at hA
      obtain ⟨r, hr, hs⟩ := hA
      exact ⟨r, hr, Or.inl (by simpa using hs)⟩
    · rw [List.any_eq_true] at hB
      obtain ⟨r, hr, hs⟩ := hB
      exact ⟨r, hr, Or.inr (by simpa using hs)⟩
  · rintro ⟨r, hr, (hs | hs)⟩
    · exact Or.inl (List.any_eq_true.mpr ⟨r, hr, by simpa using hs⟩)
    · exact Or.inr (List.any_eq_true.mpr ⟨r, hr, by simpa using hs⟩)

/-- Witness for the amended C2 at a pulled repository with one diverged
record. -/
theorem status_canPush_iff_behind_or_diverged_witness :
    envMixed.repoExists = true
    ∧ ((status envMixed repoPlain).canPush = false ↔
        ∃ r ∈ (status envMixed repoPlain).status.branches
              ++ (status envMixed repoPlain).status.tags,
          r.status = RefStatus.behind ∨ r.status = RefStatus.diverged) :=
  ⟨rfl, status_canPush_iff_behind_or_diverged envMixed repoPlain rfl⟩

/-- Claim C3 (code bug): with both ancestry queries failing outright (the
exec result of `git merge-base --is-ancestor` is a failure with an error
message, as for a missing commit object), `compareRefs` classifies the
differing pair as a plain `diverged` record, and `status` surfaces only
the generic divergence message — no distinguishable oracle failure is
reported anywhere in the result. -/
theorem oracle_failure_classified_diverged :
    (status envOracleFailure repoPlain).status.branches =
      [{ name := "main", localRef := some "aaa1111", privateRef := some "bbb2222",
         status := RefStatus.diverged }]
    ∧ (status envOracleFailure repoPlain).errors = [divergedMsg]
    ∧ (status envOracleFailure repoPlain).status.error = none
    ∧ (envOracleFailure.mergeBaseIsAncestor "bbb2222" "aaa1111").success = false
    ∧ (envOracleFailure.mergeBaseIsAncestor "bbb2222" "aaa1111").error ≠ none := by
  decide

/-- Claim C4: `hasChanges` is true iff some branch or tag record has
status `ahead`, `new`, or `missing`; in particular when every record is
`same` (or no record exists) it is false. -/
theorem status_hasChanges_iff_ahead_new_missing (env : GitEnv) (repo : RepoConfig) :
    (status env repo).hasChanges = true ↔
      ∃ r ∈ (status env repo).status.branches ++ (status env repo).status.tags,
        r.status = RefStatus.ahead ∨ r.status = RefStatus.new ∨ r.status = RefStatus.missing := by
  cases h : env.repoExists
  · simp [status, h]
  · unfold status
    rw [h]
    simp only [Bool.not_true, Bool.false_eq_true, if_false]
    rw [List.any_eq_true]
    constructor
    · rintro ⟨r, hr, hs⟩
      exact ⟨r, by simpa using hr, by simpa [or_assoc] using hs⟩
    · rintro ⟨r, hr, hs⟩
      exact ⟨r, by simpa using hr, by simpa [or_assoc] using hs⟩

/-- Claim C6: without `markSource`, on a pulled mirror, `push` performs
the mirror push only when `canPush` and `hasChanges` both hold: a blocked
status fails the push with the joined blocking reasons and no transport
side effect; a clean status without changes succeeds while pushing
nothing; otherwise the mirror push is invoked. -/
theorem push_gated_by_status (env : GitEnv) (repo : RepoConfig)
    (hms : repo.markSource = false) (h : env.repoExists = true) :
    ((status env repo).canPush = false →
        push env repo =
          { result :=
              { success := false, pushed := false,
                error := some (String.intercalate "; " (status env repo).errors) },
            noticeAttempted := false, mirrorPushAttempted := false }
        ∧ (status env repo).errors ≠ [])
    ∧ ((status env repo).canPush = true → (status env repo).hasChanges = false →
        push env repo =
          { result := { success := true, pushed := false, error := none },
            noticeAttempted := false, mirrorPushAttempted := false })
    ∧ ((status env repo).canPush = true → (status env repo).hasChanges = true →
        (push env repo).mirrorPushAttempted = true
        ∧ (push env repo).noticeAttempted = false) := by
  refine ⟨?_, ?_, ?_⟩
  · intro hcp
    refine ⟨?_, status_canPush_false_errors_ne_nil env repo h hcp⟩
    unfold push
    rw [h, hms]
    simp [hcp]
  · intro hcp hhc
    unfold push
    rw [h, hms]
    simp [hcp, hhc]
  · intro hcp hhc
    unfold push
    rw [h, hms]
    cases hpm : env.pushMirrorResult.success <;> simp [hcp, hhc, hpm]

/-- Witness for C6 at a pulled, non-`markSource` repository with a
diverged record (the blocked branch of the gate is exercised). -/
theorem push_gated_by_status_witness :
    repoPlain.markSource = false
    ∧ envMixed.repoExists = true
    ∧ (((status envMixed repoPlain).canPush = false →
          push envMixed repoPlain =
            { result :=
                { success := false, pushed := false,
                  error := some (String.intercalate "; " (status envMixed repoPlain).errors) },
              noticeAttempted := false, mirrorPushAttempted := false }
          ∧ (status envMixed repoPlain).errors ≠ [])
      ∧ ((status envMixed repoPlain).canPush = true →
            (status envMixed repoPlain).hasChanges = false →
          push envMixed repoPlain =
            { result := { success := true, pushed := false, error := none },
              noticeAttempted := false, mirrorPushAttempted := false })
      ∧ ((status envMixed repoPlain).canPush = true →
            (status envMixed repoPlain).hasChanges = true →
          (push envMixed repoPlain).mirrorPushAttempted = true
          ∧ (push envMixed repoPlain).noticeAttempted = false)) :=
  ⟨rfl, rfl, push_gated_by_status envMixed repoPlain rfl rfl⟩

/-- Claim C7: with `markSource` set, on a pulled mirror, `push` never
consults the classifier or aggregator — its outcome is independent of the
inventories and the ancestry oracle — it attempts the README source
notice, and it performs the mirror push exactly when the notice commit
succeeded, regardless of any `behind`/`diverged` records and of whether
there are changes. -/
theorem push_markSource_ignores_classifier (env1 env2 : GitEnv) (repo : RepoConfig)
    (hms : repo.markSource = true)
    (h1 : env1.repoExists = true) (h2 : env2.repoExists = true)
    (hn : env1.addSourceNoticeResult = env2.addSourceNoticeResult)
    (hp : env1.pushMirrorResult = env2.pushMirrorResult) :
    push env1 repo = push env2 repo
    ∧ (push env1 repo).noticeAttempted = true
    ∧ (push env1 repo).mirrorPushAttempted = env1.addSourceNoticeResult.success := by
  unfold push
  rw [h1, h2, hms, hn, hp]
  cases hs : env2.addSourceNoticeResult.success <;>
    cases hpm : env2.pushMirrorResult.success <;>
      simp [hs, hpm]

/-- Witness for C7: two pulled environments, one with a diverged record
and one with an ahead record, whose `push` traces coincide under
`markSource`. -/
theorem push_markSource_ignores_classifier_witness :
    repoMark.markSource = true
    ∧ envMixed.repoExists = true
    ∧ envDag.repoExists = true
    ∧ envMixed.addSourceNoticeResult = envDag.addSourceNoticeResult
    ∧ envMixed.pushMirrorResult = envDag.pushMirrorResult
    ∧ (push envMixed repoMark = push envDag repoMark
       ∧ (push envMixed repoMark).noticeAttempted = true
       ∧ (push envMixed repoMark).mirrorPushAttempted
           = envMixed.addSourceNoticeResult.success) :=
  ⟨rfl, rfl, rfl, rfl, rfl,
    push_markSource_ignores_classifier envMixed envDag repoMark rfl rfl rfl rfl rfl⟩

/-- Claim C8: the blocking-reason list carries exactly one message per
triggering condition class — one `behind` message iff some record is
behind, one divergence message iff some record is diverged — so one
diverged record among any number of same records yields `canPush = false`
with exactly the single divergence reason. -/
theorem status_one_blocking_reason_per_class (env : GitEnv) (repo : RepoConfig)
    (h : env.repoExists = true) :
    (status env repo).errors.length =
      ((if ∃ r ∈ (status env repo).status.branches ++ (status env repo).status.tags,
            r.status = RefStatus.behind then 1 else 0)
        + (if ∃ r ∈ (status env repo).status.branches ++ (status env repo).status.tags,
            r.status = RefStatus.diverged then 1 else 0))
    ∧ ((∃ r ∈ (status env repo).status.branches ++ (status env repo).status.tags,
          r.status = RefStatus.diverged) →
        (∀ r ∈ (status env repo).status.branches ++ (status env repo).status.tags,
          r.status ≠ RefStatus.behind) →
        (status env repo).canPush = false
        ∧ (status env repo).errors = [divergedMsg]) := by
  unfold status
  rw [h]
  simp only [Bool.not_true, Bool.false_eq_true, if_false]
  constructor
  · have hbiff : (∃ r ∈ (compareRefs env env.localRefs env.privateRefs).1
          ++ (compareRefs env env.localRefs env.privateRefs).2,
        r.status = RefStatus.behind) ↔
        ((compareRefs env env.localRefs env.privateRefs).1
          ++ (compareRefs env env.localRefs env.privateRefs).2).any
            (fun r => r.status == RefStatus.behind) = true := by
      rw [List.any_eq_true]; simp
    have hviff : (∃ r ∈ (compareRefs env env.localRefs env.privateRefs).1
          ++ (compareRefs env env.localRefs env.privateRefs).2,
        r.status = RefStatus.diverged) ↔
        ((compareRefs env env.localRefs env.privateRefs).1
          ++ (compareRefs env env.localRefs env.privateRefs).2).any
            (fun r => r.status == RefStatus.diverged) = true := by
      rw [List.any_eq_true]; simp
    simp only [hbiff, hviff]
    cases hb : ((compareRefs env env.localRefs env.privateRefs).1
        ++ (compareRefs env env.localRefs env.privateRefs).2).any
          (fun r => r.status == RefStatus.behind) <;>
      cases hv : ((compareRefs env env.localRefs env.privateRefs).1
          ++ (compareRefs env env.localRefs env.privateRefs).2).any
            (fun r => r.status == RefStatus.diverged) <;>
        simp [hb, hv]
  · intro hdiv hnb
    have hb : ((compareRefs env env.localRefs env.privateRefs).1
        ++ (compareRefs env env.localRefs env.privateRefs).2).any
          (fun r => r.status == RefStatus.behind) = false := by
      rw [List.any_eq_false]
      intro r hr
      simpa using hnb r hr
    have hv : ((compareRefs env env.localRefs env.privateRefs).1
        ++ (compareRefs env env.localRefs env.privateRefs).2).any
          (fun r => r.status == RefStatus.diverged) = true := by
      rw [List.any_eq_true]
      obtain ⟨r, hr, hs⟩ := hdiv
      exact ⟨r, hr, by simpa using hs⟩
    simp [hb, hv]

/-- Witness for C8 at a pulled repository with one diverged record among
two same records. -/
theorem status_one_blocking_reason_per_class_witness :
    envMixed.repoExists = true
    ∧ ((status envMixed repoPlain).errors.length =
        ((if ∃ r ∈ (status envMixed repoPlain).status.branches
              ++ (status envMixed repoPlain).status.tags,
              r.status = RefStatus.behind then 1 else 0)
          + (if ∃ r ∈ (status envMixed repoPlain).status.branches
              ++ (status envMixed repoPlain).status.tags,
              r.status = RefStatus.diverged then 1 else 0))
      ∧ ((∃ r ∈ (status envMixed repoPlain).status.branches
            ++ (status envMixed repoPlain).status.tags,
            r.status = RefStatus.diverged) →
          (∀ r ∈ (status envMixed repoPlain).status.branches
            ++ (status envMixed repoPlain).status.tags,
            r.status ≠ RefStatus.behind) →
          (status envMixed repoPlain).canPush = false
          ∧ (status envMixed repoPlain).errors = [divergedMsg])) :=
  ⟨rfl, status_one_blocking_reason_per_class envMixed repoPlain rfl⟩

/-- Claim C1: for every pair of inventories (destination commit strings
nonempty, as commit hashes are), the combined `compareRefs` output is, up
to the branch/tag partition, exactly one classification record per
qualified reference name appearing in either inventory: for each source
entry the record of claim C1's status table (`specRecordLocal`), and for
each destination-only entry a `missing` record. -/
theorem compareRefs_classifies_each_ref_once (env : GitEnv)
    (localRefs privateRefs : List (String × String))
    (hd : ∀ p ∈ privateRefs, p.2 ≠ "") :
    List.Perm
      ((compareRefs env localRefs privateRefs).1
        ++ (compareRefs env localRefs privateRefs).2)
      (localRefs.map (fun p => specRecordLocal env privateRefs p.1 p.2)
        ++ (privateRefs.filter (fun p => !(lookupRef localRefs p.1).isSome)).map
            (fun p => missingRecord p.1 p.2)) := by
  have hclassify : (fun p : String × String => classifyLocal env privateRefs p.1 p.2)
      = (fun p : String × String => specRecordLocal env privateRefs p.1 p.2) :=
    funext fun p => classifyLocal_eq_spec env privateRefs hd p.1 p.2
  rw [compareRefs_eq]
  refine (append_append_perm_swap _ _ _ _).trans (List.Perm.append ?_ ?_)
  · rw [← List.map_append, hclassify]
    refine List.Perm.map _ ?_
    have h1 := List.filter_append_perm (fun p : String × String => !isTagRef p.1) localRefs
    simpa [Bool.not_not] using h1
  · rw [← List.map_append]
    refine List.Perm.map _ ?_
    have h2 := List.filter_append_perm (fun p : String × String => !isTagRef p.1)
      (privateRefs.filter (fun p => !(lookupRef localRefs p.1).isSome))
    simpa [List.filter_filter, Bool.not_not, Bool.and_comm] using h2

/-- Witness for C1 at a concrete environment with three references. -/
theorem compareRefs_classifies_each_ref_once_witness :
    (∀ p ∈ envMixed.privateRefs, p.2 ≠ "")
    ∧ List.Perm
        ((compareRefs envMixed envMixed.localRefs envMixed.privateRefs).1
          ++ (compareRefs envMixed envMixed.localRefs envMixed.privateRefs).2)
        (envMixed.localRefs.map
            (fun p => specRecordLocal envMixed envMixed.privateRefs p.1 p.2)
          ++ (envMixed.privateRefs.filter
                (fun p => !(lookupRef envMixed.localRefs p.1).isSome)).map
              (fun p => missingRecord p.1 p.2)) :=
  ⟨by decide,
    compareRefs_classifies_each_ref_once envMixed envMixed.localRefs envMixed.privateRefs
      (by decide)⟩

/-- Claim C9: a differing pair the oracle reports as destination-ancestor
classifies `ahead` with count `rev-list dest..source`; swapping the two
commits yields a single `behind` record whose `behindCount` is the same
count. -/
theorem compareRefs_swap_ahead_behind (env : GitEnv) (refName s d : String)
    (hs : s ≠ "") (hd : d ≠ "") (hne : s ≠ d)
    (hds : isAncestor env d s = true) (hsd : isAncestor env s d = false) :
    ((compareRefs env [(refName, s)] [(refName, d)]).1
        ++ (compareRefs env [(refName, s)] [(refName, d)]).2
      = [{ name := refShortName refName, localRef := some s, privateRef := some d,
           status := RefStatus.ahead, aheadCount := some (getCommitCount env d s) }])
    ∧ ((compareRefs env [(refName, d)] [(refName, s)]).1
        ++ (compareRefs env [(refName, d)] [(refName, s)]).2
      = [{ name := refShortName refName, localRef := some d, privateRef := some s,
           status := RefStatus.behind, behindCount := some (getCommitCount env d s) }]) := by
  have hgd : getOrNull [(refName, d)] refName = some d := by
    unfold getOrNull
    rw [lookupRef_singleton]
    exact if_neg hd
  have hgs : getOrNull [(refName, s)] refName = some s := by
    unfold getOrNull
    rw [lookupRef_singleton]
    exact if_neg hs
  constructor
  · rw [compareRefs_eq]
    cases ht : isTagRef refName <;>
      simp [ht, lookupRef_singleton,
        classifyLocal_ahead env [(refName, d)] refName s d hgd hne hds]
  · rw [compareRefs_eq]
    cases ht : isTagRef refName <;>
      simp [ht, lookupRef_singleton,
        classifyLocal_behind env [(refName, s)] refName d s hgs hne.symm hsd hds]

/-- Witness for C9 over the two-commit graph: `A` one commit ahead of its
parent `B`. -/
theorem compareRefs_swap_ahead_behind_witness :
    ("A" : String) ≠ ""
    ∧ ("B" : String) ≠ ""
    ∧ ("A" : String) ≠ "B"
    ∧ isAncestor envDag "B" "A" = true
    ∧ isAncestor envDag "A" "B" = false
    ∧ (((compareRefs envDag [("heads/main", "A")] [("heads/main", "B")]).1
          ++ (compareRefs envDag [("heads/main", "A")] [("heads/main", "B")]).2
        = [{ name := refShortName "heads/main", localRef := some "A",
             privateRef := some "B", status := RefStatus.ahead,
             aheadCount := some (getCommitCount envDag "B" "A") }])
      ∧ ((compareRefs envDag [("heads/main", "B")] [("heads/main", "A")]).1
          ++ (compareRefs envDag [("heads/main", "B")] [("heads/main", "A")]).2
        = [{ name := refShortName "heads/main", localRef := some "B",
             privateRef := some "A", status := RefStatus.behind,
             behindCount := some (getCommitCount envDag "B" "A") }])) :=
  ⟨by decide, by decide, by decide, by decide, by decide,
    compareRefs_swap_ahead_behind envDag "heads/main" "A" "B"
      (by decide) (by decide) (by decide) (by decide) (by decide)⟩

/-- Claim C5: when the ancestry and count queries answer correctly for a
commit graph (ancestry is the graph's reachability, counts are the
exclusive reachable-set sizes, and reachability is antisymmetric on the
inventoried commits), `aheadCount` is populated only on `ahead` records
and `behindCount` only on `behind` records, each equals the number of
commits reachable from the higher commit but not from the lower one, and
for these strict-ancestor pairs that count is at least 1. -/
theorem compareRefs_counts_correct (env : GitEnv) (g : Dag)
    (localRefs privateRefs : List (String × String))
    (hanc : ∀ a ∈ invShas localRefs privateRefs, ∀ b ∈ invShas localRefs privateRefs,
      (env.mergeBaseIsAncestor a b).success = decide (a ∈ reach g b))
    (hcnt : ∀ a ∈ invShas localRefs privateRefs, ∀ b ∈ invShas localRefs privateRefs,
      (env.revListCount a b).success = true
      ∧ parseInt10 (env.revListCount a b).output = some (exclusiveCount g a b))
    (hanti : ∀ a ∈ invShas localRefs privateRefs, ∀ b ∈ invShas localRefs privateRefs,
      a ∈ reach g b → b ∈ reach g a → a = b) :
    ∀ r ∈ (compareRefs env localRefs privateRefs).1
          ++ (compareRefs env localRefs privateRefs).2,
      (r.aheadCount ≠ none → r.status = RefStatus.ahead)
      ∧ (r.behindCount ≠ none → r.status = RefStatus.behind)
      ∧ (r.status = RefStatus.ahead →
          ∃ s d, r.localRef = some s ∧ r.privateRef = some d
            ∧ r.aheadCount = some (exclusiveCount g d s)
            ∧ 1 ≤ exclusiveCount g d s
            ∧ r.behindCount = none)
      ∧ (r.status = RefStatus.behind →
          ∃ s d, r.localRef = some s ∧ r.privateRef = some d
            ∧ r.behindCount = some (exclusiveCount g s d)
            ∧ 1 ≤ exclusiveCount g s d
            ∧ r.aheadCount = none) := by
  intro r hr
  rcases mem_compareRefs hr with ⟨p, hp, rfl⟩ | ⟨p, hp, rfl⟩
  · have hsmem : p.2 ∈ invShas localRefs privateRefs := by
      unfold invShas
      exact List.mem_append.mpr (Or.inl (List.mem_map.mpr ⟨p, hp, rfl⟩))
    cases hg : getOrNull privateRefs p.1 with
    | none =>
        rw [classifyLocal_none env privateRefs p.1 p.2 hg]
        refine ⟨by simp, by simp, by simp, by simp⟩
    | some d =>
        obtain ⟨hlk, hdne⟩ := getOrNull_some hg
        have hdmem : d ∈ invShas localRefs privateRefs := by
          unfold invShas
          exact List.mem_append.mpr
            (Or.inr (List.mem_map.mpr ⟨(p.1, d), lookupRef_mem hlk, rfl⟩))
        by_cases heq : p.2 = d
        · rw [classifyLocal_same env privateRefs p.1 p.2 d hg heq]
          refine ⟨by simp, by simp, by simp, by simp⟩
        · cases hA2 : isAncestor env d p.2 with
          | true =>
              have hreach : d ∈ reach g p.2 := by
                have h1 := hanc d hdmem p.2 hsmem
                unfold isAncestor at hA2
                rw [hA2] at h1
                exact of_decide_eq_true h1.symm
              have hnsd : p.2 ∉ reach g d := fun hmem =>
                heq ((hanti d hdmem p.2 hsmem hreach hmem).symm)
              have hcount : getCommitCount env d p.2 = exclusiveCount g d p.2 := by
                obtain ⟨hsucc, hparse⟩ := hcnt d hdmem p.2 hsmem
                simp [getCommitCount, hsucc, hparse]
              have hpos : 1 ≤ exclusiveCount g d p.2 := one_le_exclusiveCount g hnsd
              rw [classifyLocal_ahead env privateRefs p.1 p.2 d hg heq hA2]
              refine ⟨fun _ => rfl, by simp, ?_, by simp⟩
              intro _
              exact ⟨p.2, d, rfl, rfl, by simp [hcount], hpos, rfl⟩
          | false =>
              cases hA1 : isAncestor env p.2 d with
              | true =>
                  have hreach : p.2 ∈ reach g d := by
                    have h1 := hanc p.2 hsmem d hdmem
                    unfold isAncestor at hA1
                    rw [hA1] at h1
                    exact of_decide_eq_true h1.symm
                  have hnds : d ∉ reach g p.2 := fun hmem =>
                    heq (hanti p.2 hsmem d hdmem hreach hmem)
                  have hcount : getCommitCount env p.2 d = exclusiveCount g p.2 d := by
                    obtain ⟨hsucc, hparse⟩ := hcnt p.2 hsmem d hdmem
                    simp [getCommitCount, hsucc, hparse]
                  have hpos : 1 ≤ exclusiveCount g p.2 d := one_le_exclusiveCount g hnds
                  rw [classifyLocal_behind env privateRefs p.1 p.2 d hg heq hA2 hA1]
                  refine ⟨by simp, fun _ => rfl, by simp, ?_⟩
                  intro _
                  exact ⟨p.2, d, rfl, rfl, by simp [hcount], hpos, rfl⟩
              | false =>
                  rw [classifyLocal_diverged env privateRefs p.1 p.2 d hg heq hA2 hA1]
                  refine ⟨by simp, by simp, by simp, by simp⟩
  · refine ⟨by simp [missingRecord], by simp [missingRecord],
      by simp [missingRecord], by simp [missingRecord]⟩

/-- Witness for C5 over the two-commit graph `dagW` with a correctly
answering oracle. -/
theorem compareRefs_counts_correct_witness :
    (∀ a ∈ invShas envDag.localRefs envDag.privateRefs,
      ∀ b ∈ invShas envDag.localRefs envDag.privateRefs,
        (envDag.mergeBaseIsAncestor a b).success = decide (a ∈ reach dagW b))
    ∧ (∀ a ∈ invShas envDag.localRefs envDag.privateRefs,
        ∀ b ∈ invShas envDag.localRefs envDag.privateRefs,
          (envDag.revListCount a b).success = true
          ∧ parseInt10 (envDag.revListCount a b).output = some (exclusiveCount dagW a b))
    ∧ (∀ a ∈ invShas envDag.localRefs envDag.privateRefs,
        ∀ b ∈ invShas envDag.localRefs envDag.privateRefs,
          a ∈ reach dagW b → b ∈ reach dagW a → a = b)
    ∧ ∀ r ∈ (compareRefs envDag envDag.localRefs envDag.privateRefs).1
          ++ (compareRefs envDag envDag.localRefs envDag.privateRefs).2,
        (r.aheadCount ≠ none → r.status = RefStatus.ahead)
        ∧ (r.behindCount ≠ none → r.status = RefStatus.behind)
        ∧ (r.status = RefStatus.ahead →
            ∃ s d, r.localRef = some s ∧ r.privateRef = some d
              ∧ r.aheadCount = some (exclusiveCount dagW d s)
              ∧ 1 ≤ exclusiveCount dagW d s
              ∧ r.behindCount = none)
        ∧ (r.status = RefStatus.behind →
            ∃ s d, r.localRef = some s ∧ r.privateRef = some d
              ∧ r.behindCount = some (exclusiveCount dagW s d)
              ∧ 1 ≤ exclusiveCount dagW s d
              ∧ r.aheadCount = none) :=
  ⟨by decide, by decide, by decide,
    compareRefs_counts_correct envDag dagW envDag.localRefs envDag.privateRefs
      (by decide) (by decide) (by decide)⟩

end RepoSync
